import Mathlib

/-!
Verification of the cut-region model, segment derivation, ffmpeg command
construction and progress parsing of the SimpleVideoCutTool repository.

The Python modules `src/core/cut_manager.py`, `src/utils/ffmpeg_wrapper.py`
and `src/core/video_processor.py` are shallowly embedded below.  Machine
integers are modelled by `Int` (Python integers are unbounded), float
values holding second-resolution timestamps by `ℚ` (every value the
program builds is an integral number of milliseconds divided by 1000),
strings by `String` or `List Char`, and fallible functions by `Except` /
`Option`.  Qt signal emissions and logging are side effects with no
bearing on the claims and are dropped; `QColor` values are kept as their
defining hex strings.
-/

namespace SVCT

/-- Embedding of dataclass `CutRegion` (cut_manager.py).  `color` keeps the
hex string used to build the `QColor`. -/
structure CutRegion where
  start_ms : Int
  end_ms : Int
  color : String
deriving DecidableEq, Repr

/-- `CutRegion.duration_ms` property. -/
def CutRegion.duration_ms (r : CutRegion) : Int := r.end_ms - r.start_ms

/-- `CutRegion.start_seconds` property: `start_ms / 1000.0`. -/
def CutRegion.start_seconds (r : CutRegion) : ℚ := (r.start_ms : ℚ) / 1000

/-- `CutRegion.end_seconds` property: `end_ms / 1000.0`. -/
def CutRegion.end_seconds (r : CutRegion) : ℚ := (r.end_ms : ℚ) / 1000

/-- `CutRegion.contains`: `start_ms <= position_ms <= end_ms`. -/
def CutRegion.contains (r : CutRegion) (position_ms : Int) : Bool :=
  decide (r.start_ms ≤ position_ms) && decide (position_ms ≤ r.end_ms)

/-- `CutRegion.overlaps`:
`not (self.end_ms <= other.start_ms or self.start_ms >= other.end_ms)`. -/
def CutRegion.overlaps (r other : CutRegion) : Bool :=
  !(decide (r.end_ms ≤ other.start_ms) || decide (other.end_ms ≤ r.start_ms))

/-- `CutRegion.as_tuple`: `(start_seconds, end_seconds)`. -/
def CutRegion.as_tuple (r : CutRegion) : ℚ × ℚ := (r.start_seconds, r.end_seconds)

/-- The comparison key of every `list.sort(key=lambda r: r.start_ms)` call in
cut_manager.py. -/
def regLE (a b : CutRegion) : Prop := a.start_ms ≤ b.start_ms

instance : DecidableRel regLE := fun a b => by unfold regLE; infer_instance

instance : IsTotal CutRegion regLE := ⟨fun a b => le_total a.start_ms b.start_ms⟩

instance : IsTrans CutRegion regLE := ⟨fun _ _ _ h1 h2 => le_trans h1 h2⟩

/-- Model of Python `list.sort(key=lambda r: r.start_ms)`: a stable sort on
`start_ms`; insertion sort with a non-strict key comparison is stable, like
Python Timsort. -/
def sortRegions (l : List CutRegion) : List CutRegion := l.insertionSort regLE

/-- `CutManager.REGION_COLORS` class constant. -/
def REGION_COLORS : List String :=
  ["#4CAF50", "#2196F3", "#FF9800", "#9C27B0", "#00BCD4", "#E91E63"]

/-- The mutable fields of class `CutManager` (cut_manager.py). -/
structure CutManager where
  regions : List CutRegion
  pending_marker_a : Option Int
  video_duration_ms : Int
  color_index : Nat
  history : List (List CutRegion)
  history_index : Int
deriving DecidableEq, Repr

/-- `CutManager._max_history`. -/
def max_history : Nat := 50

/-- `CutManager.__init__`. -/
def CutManager.init : CutManager :=
  { regions := [], pending_marker_a := none, video_duration_ms := 0,
    color_index := 0, history := [], history_index := -1 }

/-- `CutManager._save_history`: truncate redo branch, append a copy of the
current region list, cap the history at 50 entries keeping the newest. -/
def CutManager.save_history (m : CutManager) : CutManager :=
  let hist0 : List (List CutRegion) :=
    if m.history_index < (m.history.length : Int) - 1 then
      m.history.take (m.history_index + 1).toNat
    else m.history
  let hist1 : List (List CutRegion) := hist0 ++ [m.regions]
  if hist1.length > max_history then
    let hist2 : List (List CutRegion) := hist1.drop (hist1.length - max_history)
    { m with history := hist2, history_index := (hist2.length : Int) - 1 }
  else
    { m with history := hist1, history_index := (hist1.length : Int) - 1 }

/-- `CutManager.set_marker_a`.  Returns the Python return value paired with
the updated state. -/
def CutManager.set_marker_a (m : CutManager) (position_ms : Int) : Bool × CutManager :=
  if position_ms < 0 ∨ m.video_duration_ms < position_ms then (false, m)
  else (true, { m with pending_marker_a := some position_ms })

/-- `CutManager.set_marker_b`: orders the pair, enforces the 100 ms minimum
span, saves history, appends the new region and re-sorts by `start_ms`. -/
def CutManager.set_marker_b (m : CutManager) (position_ms : Int) : Bool × CutManager :=
  match m.pending_marker_a with
  | none => (false, m)
  | some a =>
    if position_ms < 0 ∨ m.video_duration_ms < position_ms then (false, m)
    else
      let start : Int := min a position_ms
      let stop : Int := max a position_ms
      if stop - start < 100 then (false, m)
      else
        let color : String := REGION_COLORS.getD (m.color_index % REGION_COLORS.length) ""
        let region : CutRegion := { start_ms := start, end_ms := stop, color := color }
        let m1 : CutManager := { m with color_index := m.color_index + 1 }
        let m2 : CutManager := m1.save_history
        (true, { m2 with regions := sortRegions (m2.regions ++ [region]),
                         pending_marker_a := none })

/-- `CutManager.cancel_marker_a`. -/
def CutManager.cancel_marker_a (m : CutManager) : CutManager :=
  { m with pending_marker_a := none }

/-- `CutManager.remove_region`. -/
def CutManager.remove_region (m : CutManager) (index : Int) : Bool × CutManager :=
  if 0 ≤ index ∧ index < m.regions.length then
    let m1 : CutManager := m.save_history
    (true, { m1 with regions := m1.regions.eraseIdx index.toNat })
  else (false, m)

/-- `CutManager.edit_region`: order the bounds, check limits and the 100 ms
minimum, save history, replace preserving the color, re-sort. -/
def CutManager.edit_region (m : CutManager) (index new_start_ms new_end_ms : Int) :
    Bool × CutManager :=
  if 0 ≤ index ∧ index < m.regions.length then
    let start : Int := min new_start_ms new_end_ms
    let stop : Int := max new_start_ms new_end_ms
    if start < 0 ∨ m.video_duration_ms < stop then (false, m)
    else if stop - start < 100 then (false, m)
    else
      let m1 : CutManager := m.save_history
      let old_color : String := ((m1.regions.getD index.toNat
        { start_ms := 0, end_ms := 0, color := "" }).color)
      let region : CutRegion := { start_ms := start, end_ms := stop, color := old_color }
      (true, { m1 with regions := sortRegions (m1.regions.set index.toNat region) })
  else (false, m)

/-- `CutManager.remove_region_at_position`: delete the first region whose
`contains` test accepts the position. -/
def CutManager.remove_region_at_position (m : CutManager) (position_ms : Int) :
    Bool × CutManager :=
  match m.regions.findIdx? (fun r => r.contains position_ms) with
  | some i => m.remove_region i
  | none => (false, m)

/-- `CutManager.clear_all`: saves history only when there is state to clear,
then empties regions and the pending marker and resets the color cycle. -/
def CutManager.clear_all (m : CutManager) : CutManager :=
  let m1 : CutManager :=
    if m.regions ≠ [] ∨ m.pending_marker_a ≠ none then m.save_history else m
  { m1 with regions := [], pending_marker_a := none, color_index := 0 }

/-- `CutManager.set_video_duration`: store the duration then `clear_all`. -/
def CutManager.set_video_duration (m : CutManager) (duration_ms : Int) : CutManager :=
  ({ m with video_duration_ms := duration_ms } : CutManager).clear_all

/-- The loop of `CutManager._calculate_inverse_segments`: walk the regions
with a cursor, emit the gap before each region that starts beyond the
cursor, advance the cursor to the region end, emit the tail after the last
region when one remains. -/
def calcInverseLoop (duration_ms : Int) : ℚ → List CutRegion → List (ℚ × ℚ)
  | current_pos, [] =>
    if current_pos < (duration_ms : ℚ) / 1000 then [(current_pos, (duration_ms : ℚ) / 1000)]
    else []
  | current_pos, r :: rest =>
    (if current_pos < r.start_seconds then [(current_pos, r.start_seconds)] else []) ++
      calcInverseLoop duration_ms r.end_seconds rest

/-- `CutManager._calculate_inverse_segments`. -/
def CutManager.calculate_inverse_segments (m : CutManager) : List (ℚ × ℚ) :=
  if m.regions = [] then [(0, (m.video_duration_ms : ℚ) / 1000)]
  else calcInverseLoop m.video_duration_ms 0 m.regions

/-- `CutManager.get_final_segments`. -/
def CutManager.get_final_segments (m : CutManager) (keep_mode : Bool) : List (ℚ × ℚ) :=
  if m.regions = [] then
    if 0 < m.video_duration_ms then [(0, (m.video_duration_ms : ℚ) / 1000)] else []
  else if keep_mode then m.regions.map CutRegion.as_tuple
  else m.calculate_inverse_segments

/-- `CutManager.get_total_selected_duration_ms`. -/
def CutManager.get_total_selected_duration_ms (m : CutManager) : Int :=
  (m.regions.map CutRegion.duration_ms).sum

/-- The accumulator sweep of `CutManager.merge_overlapping_regions`: merge
the next region into the accumulator whenever they overlap or the
accumulator end has reached the next start; a merge takes the union end and
keeps the accumulator color. -/
def mergeSweep : CutRegion → List CutRegion → List CutRegion
  | current, [] => [current]
  | current, r :: rest =>
    if current.overlaps r || decide (r.start_ms ≤ current.end_ms) then
      mergeSweep { start_ms := current.start_ms,
                   end_ms := max current.end_ms r.end_ms,
                   color := current.color } rest
    else current :: mergeSweep r rest

/-- The pure region-list transformation performed by
`CutManager.merge_overlapping_regions`. -/
def mergeRegions (l : List CutRegion) : List CutRegion :=
  if l.length < 2 then l
  else
    match sortRegions l with
    | [] => []
    | c :: rest => mergeSweep c rest

/-- `CutManager.merge_overlapping_regions`: no-op below two regions,
otherwise save history, sort and sweep. -/
def CutManager.merge_overlapping_regions (m : CutManager) : CutManager :=
  if m.regions.length < 2 then m
  else
    let m1 : CutManager := m.save_history
    { m1 with regions := mergeRegions m.regions }

/-- `CutManager.can_undo`: cursor strictly past the first snapshot. -/
def CutManager.can_undo (m : CutManager) : Bool := decide (0 < m.history_index)

/-- `CutManager.can_redo`. -/
def CutManager.can_redo (m : CutManager) : Bool :=
  decide (m.history_index < (m.history.length : Int) - 1)

/-- `CutManager._restore_from_history`: replace the regions by the snapshot
at the cursor and clear the pending marker. -/
def CutManager.restore_from_history (m : CutManager) : CutManager :=
  if 0 ≤ m.history_index ∧ m.history_index < (m.history.length : Int) then
    { m with regions := m.history.getD m.history_index.toNat [],
             pending_marker_a := none }
  else m

/-- `CutManager.undo`: decrement the cursor and restore. -/
def CutManager.undo (m : CutManager) : Bool × CutManager :=
  if m.can_undo then
    (true, ({ m with history_index := m.history_index - 1 } : CutManager).restore_from_history)
  else (false, m)

/-- `CutManager.redo`: increment the cursor and restore. -/
def CutManager.redo (m : CutManager) : Bool × CutManager :=
  if m.can_redo then
    (true, ({ m with history_index := m.history_index + 1 } : CutManager).restore_from_history)
  else (false, m)

/-! ### ffmpeg_wrapper.py

The builders are parametrized by `ffmpeg` (the path string returned by
`get_ffmpeg_path()`), by the detected `(encoder, preset)` pair (the result
of `detect_available_encoder()`, which probes subprocesses and always
yields a member of `availableEncoders`), and by `render : ℚ → String`, the
textual rendering of a Python float by `str()` — no claim depends on the
numeral text itself. -/

/-- `H264_CRF` constant. -/
def H264_CRF : String := "18"

/-- `AAC_BITRATE` constant. -/
def AAC_BITRATE : String := "192k"

/-- The possible results of `detect_available_encoder()`: the three
hardware rows of its `encoders` table plus the software fallback. -/
def availableEncoders : List (String × String) :=
  [("h264_nvenc", "p7"), ("h264_qsv", "veryslow"), ("h264_amf", "quality"),
   ("libx264", "medium")]

/-- `get_video_codec_args`, with the detected encoder pair made explicit. -/
def get_video_codec_args (encoder preset : String) : List String :=
  if encoder = "libx264" then ["-c:v", "libx264", "-preset", preset, "-crf", H264_CRF]
  else if encoder = "h264_nvenc" then
    ["-c:v", "h264_nvenc", "-preset", preset, "-cq", H264_CRF, "-rc", "vbr"]
  else if encoder = "h264_qsv" then
    ["-c:v", "h264_qsv", "-preset", preset, "-global_quality", H264_CRF]
  else if encoder = "h264_amf" then
    ["-c:v", "h264_amf", "-quality", preset, "-rc", "cqp", "-qp_i", H264_CRF,
     "-qp_p", H264_CRF]
  else ["-c:v", "libx264", "-preset", "medium", "-crf", H264_CRF]

/-- `build_single_segment_command`. -/
def build_single_segment_command (render : ℚ → String)
    (ffmpeg input_path output_path encoder preset : String)
    (start_seconds end_seconds : ℚ) : List String :=
  [ffmpeg, "-y", "-i", input_path,
   "-ss", render start_seconds, "-t", render (end_seconds - start_seconds)] ++
    get_video_codec_args encoder preset ++
    ["-c:a", "aac", "-b:a", AAC_BITRATE, "-progress", "pipe:1", "-nostats", output_path]

/-- The video-trim filter line `[0:v]trim={start}:{end},setpts=PTS-STARTPTS[v{i}]`. -/
def trimV (render : ℚ → String) (i : Nat) (s e : ℚ) : String :=
  "[0:v]trim=" ++ (render s ++ ":" ++ render e ++ ",setpts=PTS-STARTPTS[v" ++
    toString i ++ "]")

/-- The audio-trim filter line `[0:a]atrim={start}:{end},asetpts=PTS-STARTPTS[a{i}]`. -/
def trimA (render : ℚ → String) (i : Nat) (s e : ℚ) : String :=
  "[0:a]atrim=" ++ render s ++ ":" ++ render e ++ ",asetpts=PTS-STARTPTS[a" ++
    toString i ++ "]"

/-- The `filter_parts` accumulated by the `enumerate(segments)` loop of
`build_multi_segment_command`. -/
def multiFilterParts (render : ℚ → String) : Nat → List (ℚ × ℚ) → List String
  | _, [] => []
  | i, (s, e) :: rest =>
    trimV render i s e :: trimA render i s e :: multiFilterParts render (i + 1) rest

/-- The joined `concat_inputs` string `[v0][a0][v1][a1]…` of
`build_multi_segment_command`. -/
def multiConcatInputs : Nat → List (ℚ × ℚ) → String
  | _, [] => ""
  | i, _ :: rest =>
    "[v" ++ toString i ++ "][a" ++ toString i ++ "]" ++ multiConcatInputs (i + 1) rest

/-- Python `";".join(...)`. -/
def joinSemi : List String → String
  | [] => ""
  | [p] => p
  | p :: ps => p ++ ";" ++ joinSemi ps

/-- `build_multi_segment_command`: error on an empty list, plain single
command for one segment, trim/concat filter graph otherwise. -/
def build_multi_segment_command (render : ℚ → String)
    (ffmpeg input_path output_path encoder preset : String)
    (segments : List (ℚ × ℚ)) : Except String (List String) :=
  match segments with
  | [] => .error "La liste de segments ne peut pas être vide"
  | [(s, e)] =>
    .ok (build_single_segment_command render ffmpeg input_path output_path encoder preset s e)
  | _ =>
    let n_segments : Nat := segments.length
    let filter_complex : String :=
      joinSemi (multiFilterParts render 0 segments ++
        [multiConcatInputs 0 segments ++ "concat=n=" ++ toString n_segments ++
          ":v=1:a=1[outv][outa]"])
    .ok ([ffmpeg, "-y", "-i", input_path, "-filter_complex", filter_complex,
          "-map", "[outv]", "-map", "[outa]"] ++
      get_video_codec_args encoder preset ++
      ["-c:a", "aac", "-b:a", AAC_BITRATE, "-progress", "pipe:1", "-nostats",
       output_path])

/-- The `filter_parts` of the `build_video_only_multi_segment_command` loop. -/
def videoOnlyFilterParts (render : ℚ → String) : Nat → List (ℚ × ℚ) → List String
  | _, [] => []
  | i, (s, e) :: rest => trimV render i s e :: videoOnlyFilterParts render (i + 1) rest

/-- The joined `concat_inputs` string `[v0][v1]…` of
`build_video_only_multi_segment_command`. -/
def videoOnlyConcatInputs : Nat → List (ℚ × ℚ) → String
  | _, [] => ""
  | i, _ :: rest => "[v" ++ toString i ++ "]" ++ videoOnlyConcatInputs (i + 1) rest

/-- `build_video_only_multi_segment_command`. -/
def build_video_only_multi_segment_command (render : ℚ → String)
    (ffmpeg input_path output_path encoder preset : String)
    (segments : List (ℚ × ℚ)) : Except String (List String) :=
  match segments with
  | [] => .error "La liste de segments ne peut pas être vide"
  | [(s, e)] =>
    .ok ([ffmpeg, "-y", "-i", input_path, "-ss", render s, "-t", render (e - s)] ++
      get_video_codec_args encoder preset ++
      ["-an", "-progress", "pipe:1", "-nostats", output_path])
  | _ =>
    let n_segments : Nat := segments.length
    let filter_complex : String :=
      joinSemi (videoOnlyFilterParts render 0 segments ++
        [videoOnlyConcatInputs 0 segments ++ "concat=n=" ++ toString n_segments ++
          ":v=1:a=0[outv]"])
    .ok ([ffmpeg, "-y", "-i", input_path, "-filter_complex", filter_complex,
          "-map", "[outv]"] ++
      get_video_codec_args encoder preset ++
      ["-an", "-progress", "pipe:1", "-nostats", output_path])

/-- The separator video filter
`color=c={color}:s={w}x{h}:d={dur},format=yuv420p[sep{i}v]`. -/
def sepV (render : ℚ → String) (i : Nat) (separator_color : String)
    (video_width video_height : Int) (separator_duration : ℚ) : String :=
  "color=c=" ++ separator_color ++ ":s=" ++ toString video_width ++ "x" ++
    toString video_height ++ ":d=" ++ render separator_duration ++
    ",format=yuv420p[sep" ++ toString i ++ "v]"

/-- The separator silence filter `aevalsrc=0:d={dur}:s=48000[sep{i}a]`. -/
def sepA (render : ℚ → String) (i : Nat) (separator_duration : ℚ) : String :=
  "aevalsrc=0:d=" ++ render separator_duration ++ ":s=48000[sep" ++ toString i ++ "a]"

/-- The `filter_parts` of the `build_multi_segment_with_separators_command`
loop: each segment trim (audio too when present) followed by a separator
screen (and silence when audio is present) after every segment but the
last; `n` is the total segment count. -/
def sepFilterParts (render : ℚ → String) (has_audio : Bool) (separator_color : String)
    (video_width video_height : Int) (separator_duration : ℚ) (n : Nat) :
    Nat → List (ℚ × ℚ) → List String
  | _, [] => []
  | i, (s, e) :: rest =>
    trimV render i s e ::
      ((if has_audio then [trimA render i s e] else []) ++
        (if i < n - 1 then
          sepV render i separator_color video_width video_height separator_duration ::
            (if has_audio then [sepA render i separator_duration] else [])
        else []) ++
        sepFilterParts render has_audio separator_color video_width video_height
          separator_duration n (i + 1) rest)

/-- The joined `concat_inputs` of
`build_multi_segment_with_separators_command`. -/
def sepConcatInputs (has_audio : Bool) (n : Nat) : Nat → List (ℚ × ℚ) → String
  | _, [] => ""
  | i, _ :: rest =>
    (if has_audio then "[v" ++ toString i ++ "][a" ++ toString i ++ "]"
     else "[v" ++ toString i ++ "]") ++
      (if i < n - 1 then
        (if has_audio then "[sep" ++ toString i ++ "v][sep" ++ toString i ++ "a]"
         else "[sep" ++ toString i ++ "v]")
      else "") ++
      sepConcatInputs has_audio n (i + 1) rest

/-- `build_multi_segment_with_separators_command`. -/
def build_multi_segment_with_separators_command (render : ℚ → String)
    (ffmpeg input_path output_path encoder preset : String)
    (segments : List (ℚ × ℚ)) (separator_duration : ℚ) (separator_color : String)
    (has_audio : Bool) (video_width video_height : Int) :
    Except String (List String) :=
  match segments with
  | [] => .error "La liste de segments ne peut pas être vide"
  | [(s, e)] =>
    if has_audio then
      .ok (build_single_segment_command render ffmpeg input_path output_path
        encoder preset s e)
    else
      build_video_only_multi_segment_command render ffmpeg input_path output_path
        encoder preset segments
  | _ =>
    let n : Nat := segments.length
    let n_elements : Nat := n + (n - 1)
    let filter_complex : String :=
      joinSemi (sepFilterParts render has_audio separator_color video_width
          video_height separator_duration n 0 segments ++
        [sepConcatInputs has_audio n 0 segments ++ "concat=n=" ++
          toString n_elements ++
          (if has_audio then ":v=1:a=1[outv][outa]" else ":v=1:a=0[outv]")])
    .ok ([ffmpeg, "-y", "-i", input_path, "-filter_complex", filter_complex,
          "-map", "[outv]"] ++
      (if has_audio then ["-map", "[outa]"] else []) ++
      get_video_codec_args encoder preset ++
      (if has_audio then ["-c:a", "aac", "-b:a", AAC_BITRATE] else ["-an"]) ++
      ["-progress", "pipe:1", "-nostats", output_path])

/-- `calculate_total_duration_with_separators`. -/
def calculate_total_duration_with_separators (segments : List (ℚ × ℚ))
    (separator_duration : ℚ) : ℚ :=
  if segments = [] then 0
  else
    let segment_duration : ℚ := (segments.map (fun p => p.2 - p.1)).sum
    let separator_count : Int := max 0 ((segments.length : Int) - 1)
    segment_duration + (separator_count : ℚ) * separator_duration

/-! ### Progress parsing (ffmpeg_wrapper.py / video_processor.py)

Strings being parsed are modelled as `List Char`. -/

/-- Python `str.split(sep)` for a one-character separator. -/
def splitOnChar (c : Char) : List Char → List (List Char)
  | [] => [[]]
  | x :: xs =>
    if x = c then [] :: splitOnChar c xs
    else
      match splitOnChar c xs with
      | [] => [[x]]
      | y :: ys => (x :: y) :: ys

/-- Python `str.isdigit()`: non-empty and all digits (restricted to the
ASCII digits that occur in ffmpeg output). -/
def isDigitStr (s : List Char) : Bool := !s.isEmpty && s.all Char.isDigit

/-- The numeric value of a digit string, as read by Python `int()`. -/
def digitsVal (s : List Char) : Nat :=
  s.foldl (fun a c => a * 10 + (c.toNat - 48)) 0

/-- The sign-and-digits core of Python `int(str)`: `none` models a raised
`ValueError`.  (Surrounding whitespace and underscore separators never
occur in ffmpeg progress values and are not modelled.) -/
def parseIntOpt (s : List Char) : Option Int :=
  match s with
  | [] => none
  | c :: rest =>
    if c = '-' then (if isDigitStr rest then some (-(digitsVal rest : Int)) else none)
    else if c = '+' then (if isDigitStr rest then some ((digitsVal rest : Int)) else none)
    else if isDigitStr (c :: rest) then some ((digitsVal (c :: rest) : Int)) else none

/-- `parse_time_to_ms`: a (possibly signed) digit string is microseconds,
floor-divided by 1000; a colon-separated `HH:MM:SS.microseconds` timestamp
is converted field by field; everything else (and any conversion error)
yields 0.  Python `//` is floor division, hence `Int.fdiv`. -/
def parse_time_to_ms (s : List Char) : Int :=
  if isDigitStr s then Int.fdiv (digitsVal s : Int) 1000
  else if (s.head? = some '-' && isDigitStr s.tail) then
    Int.fdiv (-(digitsVal s.tail : Int)) 1000
  else if ':' ∈ s then
    match splitOnChar ':' s with
    | p0 :: p1 :: p2 :: _ =>
      match parseIntOpt p0, parseIntOpt p1 with
      | some hours, some minutes =>
        match splitOnChar '.' p2 with
        | sp0 :: seconds_rest =>
          match parseIntOpt sp0 with
          | some seconds =>
            let micro : Option Int :=
              match seconds_rest with
              | [] => some 0
              | sp1 :: _ => parseIntOpt sp1
            match micro with
            | some microseconds =>
              hours * 3600000 + minutes * 60000 + seconds * 1000 +
                Int.fdiv microseconds 1000
            | none => 0
          | none => 0
        | [] => 0
      | _, _ => 0
    | _ => 0
  else 0

/-- Python `str.strip()` on the characters relevant here. -/
def stripChars (s : List Char) : List Char :=
  ((s.dropWhile Char.isWhitespace).reverse.dropWhile Char.isWhitespace).reverse

/-- `parse_progress_line`: strip, then split once on the first `=`; a line
without `=` produces no key/value pair. -/
def parse_progress_line (line : List Char) : Option (List Char × List Char) :=
  let l := stripChars line
  if '=' ∈ l then some (l.takeWhile (· ≠ '='), (l.dropWhile (· ≠ '=')).tail)
  else none

/-- The `current_time_ms` update of `EncodingWorker.run` (video_processor.py
lines 104–112): an `out_time_us` value is `int(...) // 1000`, an `out_time`
value goes through `parse_time_to_ms`, anything else leaves the running
value unchanged. -/
def extractCurrentMs (parsed : Option (List Char × List Char)) (current : Int) : Int :=
  match parsed with
  | none => current
  | some (k, v) =>
    if k = "out_time_us".toList then
      match parseIntOpt v with
      | some time_us => Int.fdiv time_us 1000
      | none => current
    else if k = "out_time".toList then parse_time_to_ms v
    else current

/-! ### VideoProcessor.encode (video_processor.py) -/

/-- Python `int()` applied to a float value: truncation toward zero. -/
def pyInt (q : ℚ) : Int := if q < 0 then ⌈q⌉ else ⌊q⌋

/-- The output-duration computation of `VideoProcessor.encode`
(lines 310–318): with separators the shared helper scaled to ms, otherwise
`int(sum((end - start) * 1000 for ...))`. -/
def encodeTotalDurationMs (segments : List (ℚ × ℚ)) (use_separators : Bool)
    (separator_duration : ℚ) : Int :=
  if use_separators then
    pyInt (calculate_total_duration_with_separators segments separator_duration * 1000)
  else pyInt ((segments.map (fun p => (p.2 - p.1) * 1000)).sum)

/-- The observable outcome of a `VideoProcessor.encode` call: its return
value, whether an `EncodingWorker` was constructed and started, the
`_is_encoding` flag afterwards, and the worker total duration when one was
created. -/
structure EncodeOutcome where
  started : Bool
  worker_created : Bool
  is_encoding : Bool
  total_duration_ms : Option Int
deriving DecidableEq, Repr

/-- The control flow of `VideoProcessor.encode`: refuse when already
encoding, refuse an empty segment list before any session is created,
build the command (a builder error aborts), then create the worker and
enter the encoding state.  Logging and signal wiring are side effects and
are dropped. -/
def VideoProcessor.encode (is_encoding : Bool) (render : ℚ → String)
    (ffmpeg input_path output_path encoder preset : String)
    (segments : List (ℚ × ℚ)) (has_audio separator_enabled : Bool)
    (separator_duration : ℚ) (separator_color : String)
    (video_width video_height : Int) : EncodeOutcome :=
  if is_encoding then
    { started := false, worker_created := false, is_encoding := is_encoding,
      total_duration_ms := none }
  else if segments = [] then
    { started := false, worker_created := false, is_encoding := is_encoding,
      total_duration_ms := none }
  else
    let use_separators : Bool := separator_enabled && decide (1 < segments.length)
    let command : Except String (List String) :=
      if use_separators then
        build_multi_segment_with_separators_command render ffmpeg input_path
          output_path encoder preset segments separator_duration separator_color
          has_audio video_width video_height
      else if has_audio then
        build_multi_segment_command render ffmpeg input_path output_path
          encoder preset segments
      else
        build_video_only_multi_segment_command render ffmpeg input_path
          output_path encoder preset segments
    match command with
    | .error _ =>
      { started := false, worker_created := false, is_encoding := is_encoding,
        total_duration_ms := none }
    | .ok _ =>
      { started := true, worker_created := true, is_encoding := true,
        total_duration_ms :=
          some (encodeTotalDurationMs segments use_separators separator_duration) }

/-! ### Specification-level definitions and invariants -/

/-- The complement-gap walk as worded by the specification: walk regions in
ascending order keeping a cursor, emit the gap `(cursor, region.start)`
whenever the cursor is short of the region start, advance the cursor to the
region end, and finally emit `(cursor, duration)` if any tail remains. -/
def specComplementGaps (regions : List CutRegion) (duration : ℚ) : List (ℚ × ℚ) :=
  let fin : ℚ × List (ℚ × ℚ) :=
    regions.foldl
      (fun st r =>
        (r.end_seconds,
         st.2 ++ (if st.1 < r.start_seconds then [(st.1, r.start_seconds)] else [])))
      ((0 : ℚ), ([] : List (ℚ × ℚ)))
  fin.2 ++ (if fin.1 < duration then [(fin.1, duration)] else [])

/-- A region list sorted by `start_ms` ascending. -/
def SortedRegions (l : List CutRegion) : Prop := List.Pairwise regLE l

/-- Consecutive separation: the left region ends strictly before the right
one starts. -/
def regSep (a b : CutRegion) : Prop := a.end_ms < b.start_ms

/-- The sortedness invariant of a `CutManager` state: the live region list
and every history snapshot are sorted by `start_ms`. -/
def Inv (m : CutManager) : Prop :=
  SortedRegions m.regions ∧ ∀ s ∈ m.history, SortedRegions s

/-- How many `-filter_complex` flags an argument list carries. -/
def countFilterComplexArgs (cmd : List String) : Nat :=
  cmd.countP (fun arg => decide (arg = "-filter_complex"))

/-! ### Helper lemmas: merge sweep -/

lemma mergeCond_false {c r : CutRegion}
    (h : ¬ (c.overlaps r || decide (r.start_ms ≤ c.end_ms)) = true) :
    c.end_ms < r.start_ms := by
  simp only [CutRegion.overlaps, Bool.or_eq_true, Bool.not_eq_true', decide_eq_true_eq,
    decide_eq_false_iff_not, not_or, Bool.not_eq_true, Bool.or_eq_false_iff,
    decide_eq_false_iff_not] at h
  omega

lemma mergeCond_of_sep {c r : CutRegion} (h : c.end_ms < r.start_ms) :
    ¬ (c.overlaps r || decide (r.start_ms ≤ c.end_ms)) = true := by
  simp only [CutRegion.overlaps, Bool.or_eq_true, Bool.not_eq_true', decide_eq_true_eq,
    decide_eq_false_iff_not, not_or, Bool.not_eq_true, Bool.or_eq_false_iff,
    decide_eq_false_iff_not]
  omega

lemma mergeSweep_cons_pos {c r : CutRegion} {rest : List CutRegion}
    (hc : (c.overlaps r || decide (r.start_ms ≤ c.end_ms)) = true) :
    mergeSweep c (r :: rest) =
      mergeSweep { start_ms := c.start_ms, end_ms := max c.end_ms r.end_ms,
                   color := c.color } rest := by
  simp only [mergeSweep]
  rw [if_pos hc]

lemma mergeSweep_cons_neg {c r : CutRegion} {rest : List CutRegion}
    (hc : ¬ (c.overlaps r || decide (r.start_ms ≤ c.end_ms)) = true) :
    mergeSweep c (r :: rest) = c :: mergeSweep r rest := by
  simp only [mergeSweep]
  rw [if_neg hc]

lemma mergeSweep_head :
    ∀ (l : List CutRegion) (c : CutRegion),
      ∃ hd tl, mergeSweep c l = hd :: tl ∧ hd.start_ms = c.start_ms := by
  intro l
  induction l with
  | nil => exact fun c => ⟨c, [], rfl, rfl⟩
  | cons r rest ih =>
    intro c
    by_cases hc : (c.overlaps r || decide (r.start_ms ≤ c.end_ms)) = true
    · rw [mergeSweep_cons_pos hc]
      exact ih _
    · rw [mergeSweep_cons_neg hc]
      exact ⟨c, mergeSweep r rest, rfl, rfl⟩

lemma mergeSweep_mem_start :
    ∀ (l : List CutRegion) (c : CutRegion),
      List.Pairwise regLE l → (∀ r ∈ l, c.start_ms ≤ r.start_ms) →
      ∀ x ∈ mergeSweep c l, c.start_ms ≤ x.start_ms := by
  intro l
  induction l with
  | nil =>
    intro c _ _ x hx
    simp only [mergeSweep, List.mem_singleton] at hx
    simp [hx]
  | cons r rest ih =>
    intro c hp hall x hx
    by_cases hc : (c.overlaps r || decide (r.start_ms ≤ c.end_ms)) = true
    · rw [mergeSweep_cons_pos hc] at hx
      exact ih { start_ms := c.start_ms, end_ms := max c.end_ms r.end_ms,
                 color := c.color } hp.of_cons
        (fun s hs => hall s (List.mem_cons_of_mem _ hs)) x hx
    · rw [mergeSweep_cons_neg hc] at hx
      rcases List.mem_cons.mp hx with rfl | hx2
      · exact le_refl _
      · have hr : c.start_ms ≤ r.start_ms := hall r (List.mem_cons_self _ _)
        have h2 := ih r hp.of_cons (fun s hs => (List.rel_of_pairwise_cons hp hs)) x hx2
        exact le_trans hr h2

lemma mergeSweep_sorted :
    ∀ (l : List CutRegion) (c : CutRegion),
      List.Pairwise regLE (c :: l) → List.Pairwise regLE (mergeSweep c l) := by
  intro l
  induction l with
  | nil => intro c _; simp [mergeSweep]
  | cons r rest ih =>
    intro c hp
    by_cases hc : (c.overlaps r || decide (r.start_ms ≤ c.end_ms)) = true
    · rw [mergeSweep_cons_pos hc]
      refine ih _ ?_
      refine List.Pairwise.cons ?_ hp.of_cons.of_cons
      intro s hs
      exact List.rel_of_pairwise_cons hp (List.mem_cons_of_mem _ hs)
    · rw [mergeSweep_cons_neg hc]
      refine List.Pairwise.cons (fun x hx => ?_) (ih r hp.of_cons)
      have h1 : regLE c r := List.rel_of_pairwise_cons hp (List.mem_cons_self _ _)
      have h2 := mergeSweep_mem_start rest r hp.of_cons.of_cons
        (fun s hs => List.rel_of_pairwise_cons hp.of_cons hs) x hx
      exact le_trans h1 h2

lemma mergeSweep_chain :
    ∀ (l : List CutRegion) (c : CutRegion),
      List.Pairwise regLE (c :: l) →
      List.Chain' regSep (mergeSweep c l) := by
  intro l
  induction l with
  | nil => intro c _; simp [mergeSweep]
  | cons r rest ih =>
    intro c hp
    by_cases hc : (c.overlaps r || decide (r.start_ms ≤ c.end_ms)) = true
    · rw [mergeSweep_cons_pos hc]
      refine ih _ ?_
      refine List.Pairwise.cons ?_ hp.of_cons.of_cons
      intro s hs
      exact List.rel_of_pairwise_cons hp (List.mem_cons_of_mem _ hs)
    · have hsep : c.end_ms < r.start_ms := mergeCond_false hc
      rw [mergeSweep_cons_neg hc]
      obtain ⟨hd, tl, heq, hstart⟩ := mergeSweep_head rest r
      have hch := ih r hp.of_cons
      rw [heq] at hch ⊢
      refine List.chain'_cons.mpr ⟨?_, hch⟩
      show c.end_ms < hd.start_ms
      omega

lemma mergeSweep_of_chain :
    ∀ (l : List CutRegion) (c : CutRegion),
      List.Chain' regSep (c :: l) → mergeSweep c l = c :: l := by
  intro l
  induction l with
  | nil => intro c _; rfl
  | cons r rest ih =>
    intro c hchain
    have hsep : c.end_ms < r.start_ms := List.chain'_cons.mp hchain |>.1
    rw [mergeSweep_cons_neg (mergeCond_of_sep hsep)]
    rw [ih r (List.chain'_cons.mp hchain).2]

lemma sortRegions_sorted (l : List CutRegion) : List.Pairwise regLE (sortRegions l) :=
  List.sorted_insertionSort regLE l

lemma mergeRegions_sorted (l : List CutRegion) : List.Pairwise regLE (mergeRegions l) := by
  unfold mergeRegions
  by_cases h : l.length < 2
  · rw [if_pos h]
    match l, h with
    | [], _ => exact List.Pairwise.nil
    | [x], _ => simp
  · rw [if_neg h]
    have hs := sortRegions_sorted l
    match hm : sortRegions l with
    | [] => exact List.Pairwise.nil
    | c :: rest =>
      rw [hm] at hs
      exact mergeSweep_sorted rest c hs

lemma mergeRegions_chain (l : List CutRegion) (h : ¬ l.length < 2) :
    List.Chain' regSep (mergeRegions l) := by
  unfold mergeRegions
  rw [if_neg h]
  have hs := sortRegions_sorted l
  match hm : sortRegions l with
  | [] => exact List.chain'_nil
  | c :: rest =>
    rw [hm] at hs
    exact mergeSweep_chain rest c hs

lemma mergeRegions_idem (l : List CutRegion) :
    mergeRegions (mergeRegions l) = mergeRegions l := by
  by_cases h : l.length < 2
  · have : mergeRegions l = l := by unfold mergeRegions; rw [if_pos h]
    rw [this, this]
  · by_cases h2 : (mergeRegions l).length < 2
    · conv_lhs => rw [mergeRegions]
      rw [if_pos h2]
    · have hsorted : List.Pairwise regLE (mergeRegions l) := mergeRegions_sorted l
      have hchain : List.Chain' regSep (mergeRegions l) := mergeRegions_chain l h
      have hsort_eq : sortRegions (mergeRegions l) = mergeRegions l :=
        List.Sorted.insertionSort_eq hsorted
      conv_lhs => rw [mergeRegions]
      rw [if_neg h2, hsort_eq]
      match hm : mergeRegions l with
      | [] => rfl
      | c :: rest =>
        rw [hm] at hchain
        exact mergeSweep_of_chain rest c hchain

/-! ### Helper lemmas: history and invariant -/

lemma save_history_regions (m : CutManager) : m.save_history.regions = m.regions := by
  simp only [CutManager.save_history]
  split <;> split <;> rfl

lemma save_history_pending (m : CutManager) :
    m.save_history.pending_marker_a = m.pending_marker_a := by
  simp only [CutManager.save_history]
  split <;> split <;> rfl

lemma save_history_duration (m : CutManager) :
    m.save_history.video_duration_ms = m.video_duration_ms := by
  simp only [CutManager.save_history]
  split <;> split <;> rfl

lemma save_history_mem (m : CutManager) :
    ∀ s ∈ m.save_history.history, s ∈ m.history ∨ s = m.regions := by
  have key : ∀ (h0 : List (List CutRegion)), (∀ x ∈ h0, x ∈ m.history) →
      ∀ x ∈ h0 ++ [m.regions], x ∈ m.history ∨ x = m.regions := by
    intro h0 hsub x hx
    rcases List.mem_append.mp hx with h | h
    · exact Or.inl (hsub x h)
    · exact Or.inr (List.mem_singleton.mp h)
  intro s hs
  simp only [CutManager.save_history] at hs
  split at hs <;> split at hs <;>
    first
    | exact key _ (fun x hx => (List.take_sublist _ _).subset hx) s
        ((List.drop_sublist _ _).subset hs)
    | exact key _ (fun x hx => (List.take_sublist _ _).subset hx) s hs
    | exact key _ (fun x hx => hx) s ((List.drop_sublist _ _).subset hs)
    | exact key _ (fun x hx => hx) s hs

lemma Inv_save_history {m : CutManager} (hm : Inv m) : Inv m.save_history := by
  refine ⟨by rw [save_history_regions]; exact hm.1, fun s hs => ?_⟩
  rcases save_history_mem m s hs with h | h
  · exact hm.2 s h
  · rw [h]; exact hm.1

lemma getD_mem {α : Type _} :
    ∀ (l : List α) (n : Nat) (d : α), n < l.length → l.getD n d ∈ l := by
  intro l
  induction l with
  | nil => intro n d h; simp at h
  | cons a t ih =>
    intro n d h
    cases n with
    | zero => simp [List.getD]
    | succ k =>
      simp only [List.getD_cons_succ]
      exact List.mem_cons_of_mem a (ih k d (by simpa using h))

/-! ### Helper lemmas: inverse segments -/

lemma calcInverseLoop_pos (dur : Int) :
    ∀ (rs : List CutRegion) (cur : ℚ), ∀ p ∈ calcInverseLoop dur cur rs, p.1 < p.2 := by
  intro rs
  induction rs with
  | nil =>
    intro cur p hp
    simp only [calcInverseLoop] at hp
    split at hp
    · rw [List.mem_singleton] at hp
      subst hp
      assumption
    · simp at hp
  | cons r rest ih =>
    intro cur p hp
    simp only [calcInverseLoop] at hp
    rcases List.mem_append.mp hp with h | h
    · split at h
      · rw [List.mem_singleton] at h
        subst h
        assumption
      · simp at h
    · exact ih r.end_seconds p h

lemma gaps_foldl_general (dur : Int) :
    ∀ (rs : List CutRegion) (cur : ℚ) (acc : List (ℚ × ℚ)),
      (rs.foldl
          (fun st r =>
            (r.end_seconds,
             st.2 ++ (if st.1 < r.start_seconds then [(st.1, r.start_seconds)] else [])))
          (cur, acc)).2 ++
        (if (rs.foldl
              (fun st r =>
                (r.end_seconds,
                 st.2 ++ (if st.1 < r.start_seconds then [(st.1, r.start_seconds)] else [])))
              (cur, acc)).1 < (dur : ℚ) / 1000 then
          [((rs.foldl
              (fun st r =>
                (r.end_seconds,
                 st.2 ++ (if st.1 < r.start_seconds then [(st.1, r.start_seconds)] else [])))
              (cur, acc)).1, (dur : ℚ) / 1000)]
        else []) =
      acc ++ calcInverseLoop dur cur rs := by
  intro rs
  induction rs with
  | nil => intro cur acc; simp [calcInverseLoop]
  | cons r rest ih =>
    intro cur acc
    simp only [List.foldl_cons]
    rw [ih r.end_seconds (acc ++ _)]
    simp [calcInverseLoop, List.append_assoc]

lemma specComplementGaps_eq (regions : List CutRegion) (dur_ms : Int) :
    specComplementGaps regions ((dur_ms : ℚ) / 1000) = calcInverseLoop dur_ms 0 regions := by
  have h := gaps_foldl_general dur_ms regions 0 []
  simpa [specComplementGaps] using h

/-! ### Helper lemmas: command strings -/

lemma joinSemi_cons (p : String) (ps : List String) :
    ∃ t, joinSemi (p :: ps) = p ++ t := by
  cases ps with
  | nil => exact ⟨"", (String.append_empty p).symm⟩
  | cons q qs =>
    exact ⟨";" ++ joinSemi (q :: qs), by simp [joinSemi, String.append_assoc]⟩

lemma joinSemi_concat :
    ∀ (ps : List String) (x : String), ∃ t, joinSemi (ps ++ [x]) = t ++ x := by
  intro ps
  induction ps with
  | nil => intro x; exact ⟨"", (String.empty_append x).symm⟩
  | cons p ps ih =>
    intro x
    cases ps with
    | nil => exact ⟨p ++ ";", rfl⟩
    | cons q qs =>
      obtain ⟨t, ht⟩ := ih x
      refine ⟨p ++ ";" ++ t, ?_⟩
      show joinSemi (p :: ((q :: qs) ++ [x])) = p ++ ";" ++ t ++ x
      have heq : joinSemi (p :: ((q :: qs) ++ [x])) = p ++ ";" ++ joinSemi ((q :: qs) ++ [x]) := rfl
      rw [heq, ht]
      simp [String.append_assoc]

lemma trim_head_ne (r : String) : "[0:v]trim=" ++ r ≠ "-filter_complex" := by
  intro h
  have hd : (("[0:v]trim=" ++ r).data).head? = (("-filter_complex" : String).data).head? := by
    rw [h]
  rw [String.data_append] at hd
  rw [show ("[0:v]trim=" : String).data = '[' :: ("0:v]trim=" : String).data from rfl] at hd
  rw [show ("-filter_complex" : String).data = '-' :: ("filter_complex" : String).data
    from rfl] at hd
  simp only [List.cons_append, List.head?_cons, Option.some.injEq] at hd
  exact absurd hd (by decide)

/-! ### Helper lemmas: splitting and digit parsing -/

lemma splitOnChar_not_mem {c : Char} :
    ∀ {s : List Char}, c ∉ s → splitOnChar c s = [s] := by
  intro s
  induction s with
  | nil => intro _; rfl
  | cons x xs ih =>
    intro h
    have h1 : ¬ x = c := fun e => h (e ▸ List.mem_cons_self x xs)
    have h2 : c ∉ xs := fun e => h (List.mem_cons_of_mem x e)
    simp only [splitOnChar]
    rw [if_neg h1, ih h2]

lemma splitOnChar_append {c : Char} :
    ∀ {xs : List Char} (ys : List Char), c ∉ xs →
      splitOnChar c (xs ++ c :: ys) = xs :: splitOnChar c ys := by
  intro xs
  induction xs with
  | nil =>
    intro ys _
    simp [splitOnChar]
  | cons x xs ih =>
    intro ys h
    have h1 : ¬ x = c := fun e => h (e ▸ List.mem_cons_self x xs)
    have h2 : c ∉ xs := fun e => h (List.mem_cons_of_mem x e)
    simp only [List.cons_append, splitOnChar, List.append_eq]
    rw [if_neg h1, ih ys h2]

lemma isDigitStr_mem0 {s : List Char} (h : isDigitStr s = true) :
    ∀ c ∈ s, c.isDigit = true := by
  simp only [isDigitStr, Bool.and_eq_true, List.all_eq_true] at h
  exact h.2

lemma isDigitStr_false_of_mem {s : List Char} {c : Char} (hc : c ∈ s)
    (hd : c.isDigit = false) : isDigitStr s = false := by
  cases h : isDigitStr s
  · rfl
  · have h2 := isDigitStr_mem0 h c hc
    rw [hd] at h2
    exact absurd h2 (by decide)

lemma digit_ne_minus {c : Char} (h : c.isDigit = true) : ¬ c = '-' := by
  intro e
  rw [e] at h
  exact absurd h (by decide)

lemma digit_ne_plus {c : Char} (h : c.isDigit = true) : ¬ c = '+' := by
  intro e
  rw [e] at h
  exact absurd h (by decide)

lemma digit_ne_colon {c : Char} (h : c.isDigit = true) : ¬ c = ':' := by
  intro e
  rw [e] at h
  exact absurd h (by decide)

lemma isDigitStr_cons {s : List Char} (h : isDigitStr s = true) :
    ∃ c t, s = c :: t ∧ c.isDigit = true := by
  cases s with
  | nil => exact absurd h (by decide)
  | cons c t =>
    refine ⟨c, t, rfl, ?_⟩
    simp only [isDigitStr, List.isEmpty_cons, Bool.not_false, Bool.true_and,
      List.all_cons, Bool.and_eq_true] at h
    exact h.1

lemma parseIntOpt_digits {s : List Char} (h : isDigitStr s = true) :
    parseIntOpt s = some ((digitsVal s : ℕ) : ℤ) := by
  obtain ⟨c, t, rfl, hc⟩ := isDigitStr_cons h
  simp only [parseIntOpt]
  rw [if_neg (digit_ne_minus hc), if_neg (digit_ne_plus hc), if_pos h]

lemma merge_regions_eq (m : CutManager) :
    m.merge_overlapping_regions.regions = mergeRegions m.regions := by
  unfold CutManager.merge_overlapping_regions
  by_cases h : m.regions.length < 2
  · rw [if_pos h]
    unfold mergeRegions
    rw [if_pos h]
  · rw [if_neg h]

lemma sum_map_mul_1000 (l : List (ℚ × ℚ)) :
    (l.map (fun p => (p.2 - p.1) * 1000)).sum = 1000 * (l.map (fun p => p.2 - p.1)).sum := by
  induction l with
  | nil => simp
  | cons x xs ih =>
    simp only [List.map_cons, List.sum_cons, ih]
    ring

lemma Inv_clear_all {m : CutManager} (hm : Inv m) : Inv m.clear_all := by
  unfold CutManager.clear_all
  refine ⟨List.Pairwise.nil, ?_⟩
  split
  · exact (Inv_save_history hm).2
  · exact hm.2

lemma Inv_restore {m : CutManager} (hm : Inv m) : Inv m.restore_from_history := by
  unfold CutManager.restore_from_history
  split
  · next hb =>
    refine ⟨?_, hm.2⟩
    refine hm.2 _ (getD_mem _ _ _ ?_)
    omega
  · exact hm

lemma Inv_remove_region {m : CutManager} (hm : Inv m) (i : Int) :
    Inv (m.remove_region i).2 := by
  unfold CutManager.remove_region
  split
  · dsimp only
    exact ⟨by
      rw [save_history_regions]
      exact List.Pairwise.sublist (List.eraseIdx_sublist _ _) hm.1,
      (Inv_save_history hm).2⟩
  · exact hm

/-- C7: `merge_overlapping_regions` is idempotent on the region list: a
second call leaves the regions produced by the first call unchanged (the
first sweep leaves every consecutive pair separated by
`accumulator.end_ms < next.start_ms`, so the second sweep merges
nothing). -/
theorem merge_overlapping_regions_idempotent (m : CutManager) :
    m.merge_overlapping_regions.merge_overlapping_regions.regions =
      m.merge_overlapping_regions.regions := by
  have h1 := merge_regions_eq m.merge_overlapping_regions
  have h2 := merge_regions_eq m
  rw [h1, h2, mergeRegions_idem]

/-- C8: every public `CutManager` operation preserves the invariant that
the internal region list — and every history snapshot — is sorted by
`start_ms` ascending. -/
theorem operations_preserve_sorted (m : CutManager) (hm : Inv m)
    (p i s e d : Int) :
    Inv (m.set_marker_a p).2 ∧ Inv (m.set_marker_b p).2 ∧
    Inv (m.remove_region i).2 ∧ Inv (m.edit_region i s e).2 ∧
    Inv (m.remove_region_at_position p).2 ∧ Inv m.cancel_marker_a ∧
    Inv m.clear_all ∧ Inv (m.set_video_duration d) ∧
    Inv m.merge_overlapping_regions ∧ Inv m.undo.2 ∧ Inv m.redo.2 := by
  refine ⟨?_, ?_, ?_, ?_, ?_, ?_, ?_, ?_, ?_, ?_, ?_⟩
  · unfold CutManager.set_marker_a
    split
    · exact hm
    · exact ⟨hm.1, hm.2⟩
  · unfold CutManager.set_marker_b
    split
    · exact hm
    · split
      · exact hm
      · dsimp only
        split
        · exact hm
        · have hm1 : Inv { m with color_index := m.color_index + 1 } := ⟨hm.1, hm.2⟩
          exact ⟨sortRegions_sorted _, (Inv_save_history hm1).2⟩
  · exact Inv_remove_region hm i
  · unfold CutManager.edit_region
    split
    · dsimp only
      split
      · exact hm
      · split
        · exact hm
        · exact ⟨sortRegions_sorted _, (Inv_save_history hm).2⟩
    · exact hm
  · unfold CutManager.remove_region_at_position
    split
    · exact Inv_remove_region hm _
    · exact hm
  · exact ⟨hm.1, hm.2⟩
  · exact Inv_clear_all hm
  · exact Inv_clear_all (show Inv { m with video_duration_ms := d } from ⟨hm.1, hm.2⟩)
  · unfold CutManager.merge_overlapping_regions
    split
    · exact hm
    · exact ⟨merge_regions_eq m ▸ mergeRegions_sorted m.regions, (Inv_save_history hm).2⟩
  · unfold CutManager.undo
    split
    · exact Inv_restore
        (show Inv { m with history_index := m.history_index - 1 } from ⟨hm.1, hm.2⟩)
    · exact hm
  · unfold CutManager.redo
    split
    · exact Inv_restore
        (show Inv { m with history_index := m.history_index + 1 } from ⟨hm.1, hm.2⟩)
    · exact hm

theorem operations_preserve_sorted_witness :
    Inv ((CutManager.init.set_marker_b 0).2) ∧ Inv (CutManager.init.undo.2) :=
  ⟨(operations_preserve_sorted CutManager.init ⟨List.Pairwise.nil, by simp [CutManager.init]⟩
      0 0 0 0 0).2.1,
   (operations_preserve_sorted CutManager.init ⟨List.Pairwise.nil, by simp [CutManager.init]⟩
      0 0 0 0 0).2.2.2.2.2.2.2.2.2.1⟩

/-- C10: whenever `0 ≤ position_ms ≤ video_duration_ms`, `set_marker_a`
returns true and overwrites the pending marker — even when one is already
pending — and never touches the region list or the undo history. -/
theorem set_marker_a_spec (m : CutManager) (p : Int) (h0 : 0 ≤ p)
    (h1 : p ≤ m.video_duration_ms) :
    (m.set_marker_a p).1 = true ∧
    (m.set_marker_a p).2.pending_marker_a = some p ∧
    (m.set_marker_a p).2.regions = m.regions ∧
    (m.set_marker_a p).2.history = m.history ∧
    (m.set_marker_a p).2.history_index = m.history_index := by
  unfold CutManager.set_marker_a
  rw [if_neg (by omega : ¬ (p < 0 ∨ m.video_duration_ms < p))]
  exact ⟨rfl, rfl, rfl, rfl, rfl⟩

theorem set_marker_a_spec_witness :
    (CutManager.set_marker_a
      { regions := [], pending_marker_a := some 5, video_duration_ms := 100,
        color_index := 0, history := [], history_index := -1 } 7).1 = true ∧
    (CutManager.set_marker_a
      { regions := [], pending_marker_a := some 5, video_duration_ms := 100,
        color_index := 0, history := [], history_index := -1 } 7).2.pending_marker_a =
      some 7 :=
  ⟨(set_marker_a_spec _ 7 (by decide) (by decide)).1,
   (set_marker_a_spec _ 7 (by decide) (by decide)).2.1⟩

/-- C1: evaluation of the undo machinery at a failing input.  One add
operation on a fresh manager followed by one `undo()` does NOT restore the
pre-operation region list: the `undo()` returns false and the region
survives, because the history holds only the single pre-mutation snapshot
and `can_undo` demands a cursor strictly greater than 0.  After a second
add, the first `undo()` jumps straight to the state before the FIRST
operation (the empty list), skipping the snapshot taken before the second
operation, and a second `undo()` is refused. -/
theorem undo_history_off_by_one :
    (CutManager.init.set_video_duration 10000).regions = [] ∧
    ((((CutManager.init.set_video_duration 10000).set_marker_a 1000).2.set_marker_b
        5000).2.regions =
      [{ start_ms := 1000, end_ms := 5000, color := "#4CAF50" }]) ∧
    (((((CutManager.init.set_video_duration 10000).set_marker_a 1000).2.set_marker_b
        5000).2.undo).1 = false) ∧
    (((((CutManager.init.set_video_duration 10000).set_marker_a 1000).2.set_marker_b
        5000).2.undo).2.regions =
      [{ start_ms := 1000, end_ms := 5000, color := "#4CAF50" }]) ∧
    (((((((CutManager.init.set_video_duration 10000).set_marker_a 1000).2.set_marker_b
        5000).2.set_marker_a 7000).2.set_marker_b 9000).2.undo).2.regions = []) ∧
    (((((((CutManager.init.set_video_duration 10000).set_marker_a 1000).2.set_marker_b
        5000).2.set_marker_a 7000).2.set_marker_b 9000).2.undo).2.undo).1 = false := by
  decide

/-- C9: every command builder rejects the empty segment list with an
explicit error, and `VideoProcessor.encode` called with an empty segment
list returns false without creating a worker or entering the encoding
state. -/
theorem empty_segments_rejected (render : ℚ → String)
    (ffmpeg input_path output_path encoder preset separator_color : String)
    (separator_duration : ℚ) (has_audio separator_enabled is_encoding : Bool)
    (video_width video_height : Int) :
    build_multi_segment_command render ffmpeg input_path output_path encoder
        preset [] = .error "La liste de segments ne peut pas être vide" ∧
    build_video_only_multi_segment_command render ffmpeg input_path output_path
        encoder preset [] = .error "La liste de segments ne peut pas être vide" ∧
    build_multi_segment_with_separators_command render ffmpeg input_path
        output_path encoder preset [] separator_duration separator_color
        has_audio video_width video_height =
      .error "La liste de segments ne peut pas être vide" ∧
    VideoProcessor.encode is_encoding render ffmpeg input_path output_path
        encoder preset [] has_audio separator_enabled separator_duration
        separator_color video_width video_height =
      { started := false, worker_created := false, is_encoding := is_encoding,
        total_duration_ms := none } := by
  refine ⟨rfl, rfl, rfl, ?_⟩
  unfold VideoProcessor.encode
  split
  · rfl
  · rfl

/-- C5: for a non-empty segment list,
`calculate_total_duration_with_separators` is the sum of the segment spans
plus `(count - 1) ×` the separator duration; on the example
`[(0,2),(5,8)]` with separator duration 1.0 it yields 6.0; and on the
no-separator path the session controller uses exactly the span sum (scaled
to integral milliseconds). -/
theorem total_duration_spec :
    (∀ (segments : List (ℚ × ℚ)) (separator_duration : ℚ), segments ≠ [] →
      calculate_total_duration_with_separators segments separator_duration =
        (segments.map (fun p => p.2 - p.1)).sum +
          ((segments.length - 1 : ℕ) : ℚ) * separator_duration) ∧
    calculate_total_duration_with_separators [(0, 2), (5, 8)] 1 = 6 ∧
    (∀ (segments : List (ℚ × ℚ)) (separator_duration : ℚ),
      encodeTotalDurationMs segments false separator_duration =
        pyInt (1000 * (segments.map (fun p => p.2 - p.1)).sum)) := by
  refine ⟨?_, by rw [calculate_total_duration_with_separators, if_neg (by simp)]; norm_num, ?_⟩
  · intro segs d hne
    unfold calculate_total_duration_with_separators
    rw [if_neg hne]
    dsimp only
    have hlen : 1 ≤ segs.length := List.length_pos.mpr hne
    have hmax : max (0 : ℤ) ((segs.length : ℤ) - 1) = (segs.length : ℤ) - 1 :=
      max_eq_right (by omega)
    rw [hmax]
    congr 1
    push_cast [Nat.cast_sub hlen]
    ring
  · intro segs d
    unfold encodeTotalDurationMs
    rw [if_neg (by simp)]
    rw [sum_map_mul_1000]

theorem total_duration_spec_witness :
    calculate_total_duration_with_separators [(0, 2), (5, 8)] 1 =
      (([(0, 2), (5, 8)] : List (ℚ × ℚ)).map (fun p => p.2 - p.1)).sum +
        ((([(0, 2), (5, 8)] : List (ℚ × ℚ)).length - 1 : ℕ) : ℚ) * 1 :=
  total_duration_spec.1 [(0, 2), (5, 8)] 1 (by decide)

/-- C2: with no regions `get_final_segments` returns the whole video (or
nothing when the duration is not positive); with regions, keep mode
returns every region verbatim as a second-resolution pair — in ascending
start order whenever the list is sorted — and cut mode returns exactly
the complement-gap walk described by the specification, never emitting a
zero- or negative-length segment. -/
theorem get_final_segments_spec (m : CutManager) :
    (m.regions = [] →
      m.get_final_segments true =
        (if 0 < m.video_duration_ms then [(0, (m.video_duration_ms : ℚ) / 1000)]
         else []) ∧
      m.get_final_segments false =
        (if 0 < m.video_duration_ms then [(0, (m.video_duration_ms : ℚ) / 1000)]
         else [])) ∧
    (m.regions ≠ [] →
      m.get_final_segments true = m.regions.map CutRegion.as_tuple ∧
      (SortedRegions m.regions →
        List.Pairwise (fun p q : ℚ × ℚ => p.1 ≤ q.1) (m.get_final_segments true)) ∧
      m.get_final_segments false =
        specComplementGaps m.regions ((m.video_duration_ms : ℚ) / 1000) ∧
      (∀ p ∈ m.get_final_segments false, p.1 < p.2)) := by
  constructor
  · intro h
    unfold CutManager.get_final_segments
    rw [if_pos h, if_pos h]
    exact ⟨rfl, rfl⟩
  · intro h
    have hkeep : m.get_final_segments true = m.regions.map CutRegion.as_tuple := by
      unfold CutManager.get_final_segments
      rw [if_neg h]
      rfl
    have hcut : m.get_final_segments false = calcInverseLoop m.video_duration_ms 0 m.regions := by
      unfold CutManager.get_final_segments
      rw [if_neg h]
      show m.calculate_inverse_segments = _
      unfold CutManager.calculate_inverse_segments
      rw [if_neg h]
    refine ⟨hkeep, ?_, ?_, ?_⟩
    · intro hsort
      rw [hkeep]
      refine List.Pairwise.map _ (fun a b hab => ?_) hsort
      show a.start_seconds ≤ b.start_seconds
      unfold CutRegion.start_seconds
      exact (div_le_div_iff_of_pos_right (by norm_num)).mpr (by exact_mod_cast hab)
    · rw [hcut, specComplementGaps_eq]
    · rw [hcut]
      exact calcInverseLoop_pos m.video_duration_ms m.regions 0

theorem get_final_segments_spec_witness :
    CutManager.get_final_segments
        { regions := [{ start_ms := 1000, end_ms := 2000, color := "#4CAF50" },
                      { start_ms := 5000, end_ms := 6000, color := "#2196F3" }],
          pending_marker_a := none, video_duration_ms := 10000, color_index := 2,
          history := [], history_index := -1 } true = [(1, 2), (5, 6)] ∧
    CutManager.get_final_segments
        { regions := [{ start_ms := 1000, end_ms := 2000, color := "#4CAF50" },
                      { start_ms := 5000, end_ms := 6000, color := "#2196F3" }],
          pending_marker_a := none, video_duration_ms := 10000, color_index := 2,
          history := [], history_index := -1 } false = [(0, 1), (2, 5), (6, 10)] := by
  constructor
  · rw [((get_final_segments_spec _).2 (by decide)).1]
    norm_num [CutRegion.as_tuple, CutRegion.start_seconds, CutRegion.end_seconds]
  · rw [((get_final_segments_spec _).2 (by decide)).2.2.1]
    norm_num [specComplementGaps, CutRegion.start_seconds, CutRegion.end_seconds]

/-- C3: from any state with both positions inside the video, placing
marker A then marker B creates exactly one new region spanning
`(min a b, max a b)` and clears the pending marker when the span is at
least 100 ms; otherwise `set_marker_b` returns false, creates nothing and
leaves the pending marker-A position unchanged. -/
theorem set_marker_pair_spec (m : CutManager) (a b : Int)
    (ha0 : 0 ≤ a) (ha1 : a ≤ m.video_duration_ms)
    (hb0 : 0 ≤ b) (hb1 : b ≤ m.video_duration_ms) :
    (100 ≤ |a - b| →
      ((m.set_marker_a a).2.set_marker_b b).1 = true ∧
      ((m.set_marker_a a).2.set_marker_b b).2.pending_marker_a = none ∧
      ((m.set_marker_a a).2.set_marker_b b).2.regions.length = m.regions.length + 1 ∧
      List.Perm ((m.set_marker_a a).2.set_marker_b b).2.regions
        ({ start_ms := min a b, end_ms := max a b,
           color := REGION_COLORS.getD (m.color_index % REGION_COLORS.length) "" } ::
          m.regions)) ∧
    (|a - b| < 100 →
      ((m.set_marker_a a).2.set_marker_b b).1 = false ∧
      ((m.set_marker_a a).2.set_marker_b b).2 = (m.set_marker_a a).2 ∧
      ((m.set_marker_a a).2.set_marker_b b).2.pending_marker_a = some a ∧
      ((m.set_marker_a a).2.set_marker_b b).2.regions = m.regions) := by
  have hm1 : (m.set_marker_a a).2 = { m with pending_marker_a := some a } := by
    unfold CutManager.set_marker_a
    rw [if_neg (by omega : ¬ (a < 0 ∨ m.video_duration_ms < a))]
  rw [hm1]
  unfold CutManager.set_marker_b
  dsimp only
  rw [if_neg (by omega : ¬ (b < 0 ∨ m.video_duration_ms < b))]
  have habs : max a b - min a b = |a - b| := by
    rw [max_sub_min_eq_abs a b, abs_sub_comm]
  constructor
  · intro h100
    rw [if_neg (by rw [habs]; omega : ¬ (max a b - min a b < 100))]
    refine ⟨rfl, rfl, ?_, ?_⟩
    · show (sortRegions (_ ++ [_])).length = _
      rw [sortRegions, List.length_insertionSort, List.length_append,
        save_history_regions]
      rfl
    · show List.Perm (sortRegions (_ ++ [_])) _
      rw [save_history_regions]
      exact (List.perm_insertionSort regLE _).trans (List.perm_append_singleton _ _)
  · intro h100
    rw [if_pos (by rw [habs]; omega : max a b - min a b < 100)]
    exact ⟨rfl, rfl, rfl, rfl⟩

theorem set_marker_pair_spec_witness :
    ((CutManager.set_marker_a
        { regions := [], pending_marker_a := none, video_duration_ms := 10000,
          color_index := 0, history := [], history_index := -1 }
        5000).2.set_marker_b 1000).1 = true ∧
    ((CutManager.set_marker_a
        { regions := [], pending_marker_a := none, video_duration_ms := 10000,
          color_index := 0, history := [], history_index := -1 }
        5000).2.set_marker_b 1000).2.pending_marker_a = none ∧
    ((CutManager.set_marker_a
        { regions := [], pending_marker_a := none, video_duration_ms := 10000,
          color_index := 0, history := [], history_index := -1 }
        1000).2.set_marker_b 1050).1 = false := by
  refine ⟨?_, ?_, ?_⟩
  · exact ((set_marker_pair_spec _ 5000 1000 (by decide) (by decide) (by decide)
      (by decide)).1 (by decide)).1
  · exact ((set_marker_pair_spec _ 5000 1000 (by decide) (by decide) (by decide)
      (by decide)).1 (by decide)).2.1
  · exact ((set_marker_pair_spec _ 1000 1050 (by decide) (by decide) (by decide)
      (by decide)).2 (by decide)).1

lemma fdiv_ofNat (u : ℕ) : Int.fdiv (u : ℤ) 1000 = ((u / 1000 : ℕ) : ℤ) := by
  rw [Int.fdiv_eq_ediv _ (by norm_num), Int.natCast_div]
  rfl

lemma not_digit_colon_mem {s : List Char} (h : isDigitStr s = true) : ':' ∉ s := by
  intro hmem
  exact absurd (isDigitStr_mem0 h _ hmem) (by decide)

lemma not_digit_dot_mem {s : List Char} (h : isDigitStr s = true) : '.' ∉ s := by
  intro hmem
  exact absurd (isDigitStr_mem0 h _ hmem) (by decide)

/-- C6: progress time extraction.  A digit string of microseconds maps to
its value floor-divided by 1000 (both through `parse_time_to_ms` and
through the `out_time_us` branch of the encoding worker), and a formatted
`HH:MM:SS.ffffff` timestamp maps to
`HH*3600000 + MM*60000 + SS*1000 + ffffff/1000` milliseconds. -/
theorem parse_time_to_ms_spec :
    (∀ s : List Char, isDigitStr s = true →
      parse_time_to_ms s = ((digitsVal s / 1000 : ℕ) : ℤ)) ∧
    (∀ (v : List Char) (current : Int), isDigitStr v = true →
      extractCurrentMs (some ("out_time_us".toList, v)) current =
        ((digitsVal v / 1000 : ℕ) : ℤ)) ∧
    (∀ hs ms ss fs : List Char, isDigitStr hs = true → isDigitStr ms = true →
      isDigitStr ss = true → isDigitStr fs = true →
      parse_time_to_ms (hs ++ ':' :: (ms ++ ':' :: (ss ++ '.' :: fs))) =
        (digitsVal hs : ℤ) * 3600000 + (digitsVal ms : ℤ) * 60000 +
          (digitsVal ss : ℤ) * 1000 + ((digitsVal fs / 1000 : ℕ) : ℤ)) := by
  refine ⟨?_, ?_, ?_⟩
  · intro s h
    unfold parse_time_to_ms
    rw [if_pos h]
    exact fdiv_ofNat _
  · intro v current h
    unfold extractCurrentMs
    dsimp only
    rw [if_pos rfl, parseIntOpt_digits h]
    exact fdiv_ofNat _
  · intro hs ms ss fs h1 h2 h3 h4
    obtain ⟨c, t, rfl, hc⟩ := isDigitStr_cons h1
    have hnd : isDigitStr ((c :: t) ++ ':' :: (ms ++ ':' :: (ss ++ '.' :: fs))) = false :=
      isDigitStr_false_of_mem
        (show ':' ∈ (c :: t) ++ ':' :: (ms ++ ':' :: (ss ++ '.' :: fs)) by simp)
        (by decide)
    have hhead : ¬ (((c :: t) ++ ':' :: (ms ++ ':' :: (ss ++ '.' :: fs))).head? =
        some '-') := by
      simp only [List.cons_append, List.head?_cons, Option.some.injEq]
      exact digit_ne_minus hc
    unfold parse_time_to_ms
    split
    · next hcond => exact absurd hcond (by rw [hnd]; simp)
    · split
      · next hcond2 =>
        simp only [Bool.and_eq_true, decide_eq_true_eq] at hcond2
        exact absurd hcond2.1 hhead
      · split
        · rw [splitOnChar_append _ (not_digit_colon_mem h1),
            splitOnChar_append _ (not_digit_colon_mem h2),
            splitOnChar_not_mem (by
              intro hmem
              rcases List.mem_append.mp hmem with hmem | hmem
              · exact not_digit_colon_mem h3 hmem
              · rcases List.mem_cons.mp hmem with hmem | hmem
                · exact absurd hmem (by decide)
                · exact not_digit_colon_mem h4 hmem)]
          dsimp only
          rw [parseIntOpt_digits h1, parseIntOpt_digits h2]
          dsimp only
          rw [splitOnChar_append _ (not_digit_dot_mem h3),
            splitOnChar_not_mem (not_digit_dot_mem h4)]
          dsimp only
          rw [parseIntOpt_digits h3]
          dsimp only
          rw [parseIntOpt_digits h4]
          dsimp only
          rw [fdiv_ofNat]
        · next hmem => exact absurd (by simp) hmem

theorem parse_time_to_ms_spec_witness :
    parse_time_to_ms ['1', '5', '0', '0', '0', '0', '0'] = 1500 ∧
    parse_time_to_ms
      (['0', '0'] ++ ':' :: (['0', '0'] ++ ':' :: (['0', '1'] ++ '.' ::
        ['5', '0', '0', '0', '0', '0']))) = 1500 ∧
    extractCurrentMs (some ("out_time_us".toList, ['1', '5', '0', '0', '0', '0', '0']))
      0 = 1500 := by
  refine ⟨?_, ?_, ?_⟩
  · rw [parse_time_to_ms_spec.1 ['1', '5', '0', '0', '0', '0', '0'] (by decide)]
    decide
  · rw [parse_time_to_ms_spec.2.2 ['0', '0'] ['0', '0'] ['0', '1']
      ['5', '0', '0', '0', '0', '0'] (by decide) (by decide) (by decide) (by decide)]
    decide
  · rw [parse_time_to_ms_spec.2.1 ['1', '5', '0', '0', '0', '0', '0'] 0 (by decide)]
    decide

lemma codec_args_countP (encoder preset : String)
    (h : (encoder, preset) ∈ availableEncoders) :
    List.countP (fun arg => decide (arg = "-filter_complex"))
      (get_video_codec_args encoder preset) = 0 := by
  simp only [availableEncoders, List.mem_cons, List.not_mem_nil, or_false,
    Prod.mk.injEq] at h
  rcases h with ⟨he, hp⟩ | ⟨he, hp⟩ | ⟨he, hp⟩ | ⟨he, hp⟩ <;> subst he <;> subst hp <;>
    decide

lemma joinSemi_trimV_ne (render : ℚ → String) (i : Nat) (s e : ℚ) (ps : List String) :
    joinSemi (trimV render i s e :: ps) ≠ "-filter_complex" := by
  obtain ⟨t, ht⟩ := joinSemi_cons (trimV render i s e) ps
  rw [ht]
  unfold trimV
  rw [String.append_assoc]
  exact trim_head_ne _

lemma joinSemi_parts_ne {P : List String} (render : ℚ → String) (i : Nat) (s e : ℚ)
    (h : ∃ tl, P = trimV render i s e :: tl) : joinSemi P ≠ "-filter_complex" := by
  obtain ⟨tl, rfl⟩ := h
  exact joinSemi_trimV_ne render i s e tl

lemma exists_pre_concat (parts : List String) (inputs c1 c2 c3 : String) :
    ∃ pre, joinSemi (parts ++ [inputs ++ c1 ++ c2 ++ c3]) = pre ++ (c1 ++ c2 ++ c3) := by
  obtain ⟨t, ht⟩ := joinSemi_concat parts (inputs ++ c1 ++ c2 ++ c3)
  refine ⟨t ++ inputs, ?_⟩
  rw [ht]
  simp [String.append_assoc]

lemma single_cmd_count (render : ℚ → String)
    (ffmpeg input_path output_path encoder preset : String) (s e : ℚ)
    (henc : (encoder, preset) ∈ availableEncoders)
    (hff : ffmpeg ≠ "-filter_complex") (hin : input_path ≠ "-filter_complex")
    (hout : output_path ≠ "-filter_complex")
    (hrender : ∀ q : ℚ, render q ≠ "-filter_complex") :
    countFilterComplexArgs
      (build_single_segment_command render ffmpeg input_path output_path encoder
        preset s e) = 0 := by
  unfold build_single_segment_command countFilterComplexArgs AAC_BITRATE
  simp [List.countP_append, List.countP_cons, codec_args_countP encoder preset henc,
    hff, hin, hout, hrender s, hrender (e - s)]

lemma video_only_single_count (render : ℚ → String)
    (ffmpeg input_path output_path encoder preset : String) (s e : ℚ)
    (henc : (encoder, preset) ∈ availableEncoders)
    (hff : ffmpeg ≠ "-filter_complex") (hin : input_path ≠ "-filter_complex")
    (hout : output_path ≠ "-filter_complex")
    (hrender : ∀ q : ℚ, render q ≠ "-filter_complex") :
    countFilterComplexArgs
      ([ffmpeg, "-y", "-i", input_path, "-ss", render s, "-t", render (e - s)] ++
        get_video_codec_args encoder preset ++
        ["-an", "-progress", "pipe:1", "-nostats", output_path]) = 0 := by
  unfold countFilterComplexArgs
  simp [List.countP_append, List.countP_cons, codec_args_countP encoder preset henc,
    hff, hin, hout, hrender s, hrender (e - s)]

/-- C4: a single segment never yields a `-filter_complex` argument; two or
more segments always yield exactly one, whose filter graph ends in a
concat declaration with `n` equal to the segment count for the plain
builders and `2N-1` for the separator builder, with stream flags
`v=1:a=1` when the audio stream is kept and `v=1:a=0` otherwise. -/
theorem builder_concat_spec (render : ℚ → String)
    (ffmpeg input_path output_path encoder preset separator_color : String)
    (separator_duration : ℚ) (has_audio : Bool) (video_width video_height : Int)
    (segments : List (ℚ × ℚ))
    (henc : (encoder, preset) ∈ availableEncoders)
    (hff : ffmpeg ≠ "-filter_complex") (hin : input_path ≠ "-filter_complex")
    (hout : output_path ≠ "-filter_complex")
    (hrender : ∀ q : ℚ, render q ≠ "-filter_complex") :
    (segments.length = 1 →
      (∀ cmd, build_multi_segment_command render ffmpeg input_path output_path
          encoder preset segments = .ok cmd → countFilterComplexArgs cmd = 0) ∧
      (∀ cmd, build_video_only_multi_segment_command render ffmpeg input_path
          output_path encoder preset segments = .ok cmd →
          countFilterComplexArgs cmd = 0) ∧
      (∀ cmd, build_multi_segment_with_separators_command render ffmpeg
          input_path output_path encoder preset segments separator_duration
          separator_color has_audio video_width video_height = .ok cmd →
          countFilterComplexArgs cmd = 0)) ∧
    (2 ≤ segments.length →
      (∃ cmd, build_multi_segment_command render ffmpeg input_path output_path
          encoder preset segments = .ok cmd ∧
        countFilterComplexArgs cmd = 1 ∧ cmd[4]? = some "-filter_complex" ∧
        ∃ pre, cmd[5]? =
          some (pre ++ ("concat=n=" ++ toString segments.length ++
            ":v=1:a=1[outv][outa]"))) ∧
      (∃ cmd, build_video_only_multi_segment_command render ffmpeg input_path
          output_path encoder preset segments = .ok cmd ∧
        countFilterComplexArgs cmd = 1 ∧ cmd[4]? = some "-filter_complex" ∧
        ∃ pre, cmd[5]? =
          some (pre ++ ("concat=n=" ++ toString segments.length ++
            ":v=1:a=0[outv]"))) ∧
      (has_audio = true →
        ∃ cmd, build_multi_segment_with_separators_command render ffmpeg
            input_path output_path encoder preset segments separator_duration
            separator_color has_audio video_width video_height = .ok cmd ∧
          countFilterComplexArgs cmd = 1 ∧ cmd[4]? = some "-filter_complex" ∧
          ∃ pre, cmd[5]? =
            some (pre ++ ("concat=n=" ++ toString (2 * segments.length - 1) ++
              ":v=1:a=1[outv][outa]"))) ∧
      (has_audio = false →
        ∃ cmd, build_multi_segment_with_separators_command render ffmpeg
            input_path output_path encoder preset segments separator_duration
            separator_color has_audio video_width video_height = .ok cmd ∧
          countFilterComplexArgs cmd = 1 ∧ cmd[4]? = some "-filter_complex" ∧
          ∃ pre, cmd[5]? =
            some (pre ++ ("concat=n=" ++ toString (2 * segments.length - 1) ++
              ":v=1:a=0[outv]")))) := by
  constructor
  · intro hlen1
    cases segments with
    | nil => exact absurd hlen1 (by simp)
    | cons p ps =>
      cases ps with
      | cons q qs => simp at hlen1
      | nil =>
        obtain ⟨s1, e1⟩ := p
        refine ⟨?_, ?_, ?_⟩
        · intro cmd hcmd
          have h2 : Except.ok (build_single_segment_command render ffmpeg input_path
              output_path encoder preset s1 e1) = Except.ok cmd := hcmd
          cases h2
          exact single_cmd_count render ffmpeg input_path output_path encoder preset
            s1 e1 henc hff hin hout hrender
        · intro cmd hcmd
          have h2 : Except.ok
              ([ffmpeg, "-y", "-i", input_path, "-ss", render s1, "-t",
                render (e1 - s1)] ++ get_video_codec_args encoder preset ++
                ["-an", "-progress", "pipe:1", "-nostats", output_path]) =
              Except.ok cmd := hcmd
          cases h2
          exact video_only_single_count render ffmpeg input_path output_path encoder
            preset s1 e1 henc hff hin hout hrender
        · intro cmd hcmd
          cases has_audio with
          | true =>
            have h2 : Except.ok (build_single_segment_command render ffmpeg
                input_path output_path encoder preset s1 e1) = Except.ok cmd := hcmd
            cases h2
            exact single_cmd_count render ffmpeg input_path output_path encoder
              preset s1 e1 henc hff hin hout hrender
          | false =>
            have h2 : Except.ok
                ([ffmpeg, "-y", "-i", input_path, "-ss", render s1, "-t",
                  render (e1 - s1)] ++ get_video_codec_args encoder preset ++
                  ["-an", "-progress", "pipe:1", "-nostats", output_path]) =
                Except.ok cmd := hcmd
            cases h2
            exact video_only_single_count render ffmpeg input_path output_path
              encoder preset s1 e1 henc hff hin hout hrender
  · intro hlen2
    cases segments with
    | nil => exact absurd hlen2 (by simp)
    | cons p ps =>
      cases ps with
      | nil => exact absurd hlen2 (by simp)
      | cons q qs =>
        obtain ⟨s1, e1⟩ := p
        obtain ⟨s2, e2⟩ := q
        refine ⟨?_, ?_, ?_, ?_⟩
        · refine ⟨_, rfl, ?_, rfl, ?_⟩
          · have hflt : joinSemi (multiFilterParts render 0
                ((s1, e1) :: (s2, e2) :: qs) ++
                [multiConcatInputs 0 ((s1, e1) :: (s2, e2) :: qs) ++ "concat=n=" ++
                  toString ((s1, e1) :: (s2, e2) :: qs).length ++
                  ":v=1:a=1[outv][outa]"]) ≠ "-filter_complex" :=
              joinSemi_parts_ne render 0 s1 e1 ⟨_, rfl⟩
            unfold countFilterComplexArgs AAC_BITRATE
            simp [List.countP_append, List.countP_cons, -List.length_cons,
              codec_args_countP encoder preset henc, hff, hin, hout, hflt]
          · obtain ⟨pre, hpre⟩ := exists_pre_concat
              (multiFilterParts render 0 ((s1, e1) :: (s2, e2) :: qs))
              (multiConcatInputs 0 ((s1, e1) :: (s2, e2) :: qs)) "concat=n="
              (toString ((s1, e1) :: (s2, e2) :: qs).length) ":v=1:a=1[outv][outa]"
            exact ⟨pre, by rw [← hpre]; exact rfl⟩
        · refine ⟨_, rfl, ?_, rfl, ?_⟩
          · have hflt : joinSemi (videoOnlyFilterParts render 0
                ((s1, e1) :: (s2, e2) :: qs) ++
                [videoOnlyConcatInputs 0 ((s1, e1) :: (s2, e2) :: qs) ++ "concat=n=" ++
                  toString ((s1, e1) :: (s2, e2) :: qs).length ++
                  ":v=1:a=0[outv]"]) ≠ "-filter_complex" :=
              joinSemi_parts_ne render 0 s1 e1 ⟨_, rfl⟩
            unfold countFilterComplexArgs
            simp [List.countP_append, List.countP_cons, -List.length_cons,
              codec_args_countP encoder preset henc, hff, hin, hout, hflt]
          · obtain ⟨pre, hpre⟩ := exists_pre_concat
              (videoOnlyFilterParts render 0 ((s1, e1) :: (s2, e2) :: qs))
              (videoOnlyConcatInputs 0 ((s1, e1) :: (s2, e2) :: qs)) "concat=n="
              (toString ((s1, e1) :: (s2, e2) :: qs).length) ":v=1:a=0[outv]"
            exact ⟨pre, by rw [← hpre]; exact rfl⟩
        · intro haud
          subst haud
          have hn : 2 * ((s1, e1) :: (s2, e2) :: qs).length - 1 =
              ((s1, e1) :: (s2, e2) :: qs).length +
                (((s1, e1) :: (s2, e2) :: qs).length - 1) := by
            simp only [List.length_cons]
            omega
          refine ⟨_, rfl, ?_, rfl, ?_⟩
          · have hflt : joinSemi (sepFilterParts render true separator_color
                video_width video_height separator_duration
                ((s1, e1) :: (s2, e2) :: qs).length 0
                ((s1, e1) :: (s2, e2) :: qs) ++
                [sepConcatInputs true ((s1, e1) :: (s2, e2) :: qs).length 0
                  ((s1, e1) :: (s2, e2) :: qs) ++ "concat=n=" ++
                  toString (((s1, e1) :: (s2, e2) :: qs).length +
                    (((s1, e1) :: (s2, e2) :: qs).length - 1)) ++
                  ":v=1:a=1[outv][outa]"]) ≠ "-filter_complex" :=
              joinSemi_parts_ne render 0 s1 e1 ⟨_, rfl⟩
            unfold countFilterComplexArgs AAC_BITRATE
            simp [List.countP_append, List.countP_cons, -List.length_cons,
              codec_args_countP encoder preset henc, hff, hin, hout, hflt]
          · rw [hn]
            obtain ⟨pre, hpre⟩ := exists_pre_concat
              (sepFilterParts render true separator_color video_width video_height
                separator_duration ((s1, e1) :: (s2, e2) :: qs).length 0
                ((s1, e1) :: (s2, e2) :: qs))
              (sepConcatInputs true ((s1, e1) :: (s2, e2) :: qs).length 0
                ((s1, e1) :: (s2, e2) :: qs)) "concat=n="
              (toString (((s1, e1) :: (s2, e2) :: qs).length +
                (((s1, e1) :: (s2, e2) :: qs).length - 1))) ":v=1:a=1[outv][outa]"
            exact ⟨pre, by rw [← hpre]; exact rfl⟩
        · intro haud
          subst haud
          have hn : 2 * ((s1, e1) :: (s2, e2) :: qs).length - 1 =
              ((s1, e1) :: (s2, e2) :: qs).length +
                (((s1, e1) :: (s2, e2) :: qs).length - 1) := by
            simp only [List.length_cons]
            omega
          refine ⟨_, rfl, ?_, rfl, ?_⟩
          · have hflt : joinSemi (sepFilterParts render false separator_color
                video_width video_height separator_duration
                ((s1, e1) :: (s2, e2) :: qs).length 0
                ((s1, e1) :: (s2, e2) :: qs) ++
                [sepConcatInputs false ((s1, e1) :: (s2, e2) :: qs).length 0
                  ((s1, e1) :: (s2, e2) :: qs) ++ "concat=n=" ++
                  toString (((s1, e1) :: (s2, e2) :: qs).length +
                    (((s1, e1) :: (s2, e2) :: qs).length - 1)) ++
                  ":v=1:a=0[outv]"]) ≠ "-filter_complex" :=
              joinSemi_parts_ne render 0 s1 e1 ⟨_, rfl⟩
            unfold countFilterComplexArgs
            simp [List.countP_append, List.countP_cons, -List.length_cons,
              codec_args_countP encoder preset henc, hff, hin, hout, hflt]
          · rw [hn]
            obtain ⟨pre, hpre⟩ := exists_pre_concat
              (sepFilterParts render false separator_color video_width video_height
                separator_duration ((s1, e1) :: (s2, e2) :: qs).length 0
                ((s1, e1) :: (s2, e2) :: qs))
              (sepConcatInputs false ((s1, e1) :: (s2, e2) :: qs).length 0
                ((s1, e1) :: (s2, e2) :: qs)) "concat=n="
              (toString (((s1, e1) :: (s2, e2) :: qs).length +
                (((s1, e1) :: (s2, e2) :: qs).length - 1))) ":v=1:a=0[outv]"
            exact ⟨pre, by rw [← hpre]; exact rfl⟩

theorem builder_concat_spec_witness :
    (∃ cmd, build_multi_segment_command (fun _ => "0") "ffmpeg" "in.mp4" "out.mp4"
        "libx264" "medium" [(0, 2), (5, 8)] = .ok cmd ∧
      countFilterComplexArgs cmd = 1 ∧ cmd[4]? = some "-filter_complex" ∧
      ∃ pre, cmd[5]? =
        some (pre ++ ("concat=n=" ++ toString ([(0, 2), (5, 8)] : List (ℚ × ℚ)).length ++
          ":v=1:a=1[outv][outa]"))) ∧
    (∀ cmd, build_multi_segment_command (fun _ => "0") "ffmpeg" "in.mp4" "out.mp4"
        "libx264" "medium" [(0, 2)] = .ok cmd → countFilterComplexArgs cmd = 0) := by
  constructor
  · exact (builder_concat_spec (fun _ => "0") "ffmpeg" "in.mp4" "out.mp4" "libx264"
      "medium" "black" 2 true 1920 1080 [(0, 2), (5, 8)]
      (by decide) (by decide) (by decide) (by decide)
      (fun _ => show ("0" : String) ≠ "-filter_complex" by decide)).2
      (by decide) |>.1
  · exact (builder_concat_spec (fun _ => "0") "ffmpeg" "in.mp4" "out.mp4" "libx264"
      "medium" "black" 2 true 1920 1080 [(0, 2)]
      (by decide) (by decide) (by decide) (by decide)
      (fun _ => show ("0" : String) ≠ "-filter_complex" by decide)).1
      (by decide) |>.1

end SVCT
